import Mathlib

/-
  Verification development for the actix-htmx repository.

  The Rust sources are shallowly embedded:
  * `IndexMap` (insertion-ordered map) is modelled as an association list
    with replace-in-place insertion (`omInsert`).
  * Header byte strings are modelled as `List Nat` (one entry per byte).
  * The middleware's serialization closures (`trigger_json`, `simple_header`,
    `process_trigger_header` in middleware.rs) become pure functions on the
    embedded state.
-/

namespace ActixHtmx

/-! ### Character and string helpers

The serializers in middleware.rs build strings by pushing characters and
substrings; we mirror `String::pop` (drop the last char) and `String::push`.
Special characters are written via `Char.ofNat` code points. -/

def qm : Char := Char.ofNat 34

def bsl : Char := Char.ofNat 92

def lbrace : Char := Char.ofNat 123

def rbrace : Char := Char.ofNat 125

def qS : String := ⟨[qm]⟩

def lbS : String := ⟨[lbrace]⟩

def rbS : String := ⟨[rbrace]⟩

/-- Rust `String::pop`: remove the last character (identity on ""). -/
def strPop (s : String) : String := ⟨s.data.dropLast⟩

/-- Rust `String::push`. -/
def strPush (s : String) (c : Char) : String := ⟨s.data ++ [c]⟩

/-- Whitespace test used by Rust `str::trim` (ASCII fragment of
`char::is_whitespace`, which is what the serializer can meet here). -/
def rustWs (c : Char) : Bool :=
  c = ' ' || c = Char.ofNat 9 || c = Char.ofNat 10 || c = Char.ofNat 13 || c = Char.ofNat 12 || c = Char.ofNat 11

/-- Rust `str::trim`: drop leading and trailing whitespace. -/
def strTrim (s : String) : String :=
  ⟨((s.data.dropWhile rustWs).reverse.dropWhile rustWs).reverse⟩

/-- Rust `str::starts_with('\x7b')` — does the string begin with a left brace? -/
def startsWithLBrace (s : String) : Bool :=
  match s.data with
  | c :: _ => c = lbrace
  | [] => false

/-! ### Insertion-ordered map (`indexmap::IndexMap`)

`IndexMap::insert` replaces the value in place when the key is present
(keeping its original position) and appends otherwise. -/

def omInsert {κ α : Type} [DecidableEq κ] : List (κ × α) → κ → α → List (κ × α)
  | [], k, v => [(k, v)]
  | e :: es, k, v => if e.1 = k then (k, v) :: es else e :: omInsert es k v

def omLookup {κ α : Type} [DecidableEq κ] : List (κ × α) → κ → Option α
  | [], _ => none
  | e :: es, k => if e.1 = k then some e.2 else omLookup es k

/-! ### Trigger serializers (middleware.rs, lines 121–147)

`trigger_json` starts from "\x7b", appends one fragment per entry (each
ending in a comma), pops the final comma and pushes "\x7d".  A payload whose
trimmed text starts with a left brace is spliced verbatim; any other payload
and every key is wrapped in bare double quotes with no escaping. -/

def trigger_entry (acc : String) (key : String) (value : Option String) : String :=
  match value with
  | some v =>
      if startsWithLBrace (strTrim v) then
        acc ++ qS ++ key ++ qS ++ ": " ++ v ++ ","
      else
        acc ++ qS ++ key ++ qS ++ ": " ++ qS ++ v ++ qS ++ ","
  | none => acc ++ qS ++ key ++ qS ++ ": null,"

def trigger_json (trigger_map : List (String × Option String)) : String :=
  strPush (strPop (trigger_map.foldl (fun acc e => trigger_entry acc e.1 e.2) lbS)) rbrace

/-- `simple_header` (middleware.rs): keys joined with trailing commas, last
comma popped. -/
def simple_header (trigger_map : List (String × Option String)) : String :=
  strPop (trigger_map.foldl (fun acc e => acc ++ e.1 ++ ",") "")

/-! ### Header-value and header-name validity (http crate)

Modelled from the `http` crate used by actix-web:
`HeaderValue::from_str` accepts a string iff every byte `b` satisfies
`b >= 32 && b != 127 || b == 9`; `HeaderName` parsing accepts non-empty
token strings (letters are normalized to lowercase), and
`HeaderValue::to_str` succeeds iff every byte is visible ASCII
(`b >= 32 && b < 127`) or tab. -/

def charUtf8 (n : Nat) : List Nat :=
  if n < 128 then [n]
  else if n < 2048 then [192 + n / 64, 128 + n % 64]
  else if n < 65536 then [224 + n / 4096, 128 + (n / 64) % 64, 128 + n % 64]
  else [240 + n / 262144, 128 + (n / 4096) % 64, 128 + (n / 64) % 64, 128 + n % 64]

/-- UTF-8 byte sequence of a string (Rust `str::as_bytes`). -/
def strBytes (s : String) : List Nat :=
  (s.data.map (fun c => charUtf8 c.toNat)).flatten

def validHeaderValueByte (b : Nat) : Bool :=
  (32 ≤ b && b ≠ 127) || b = 9

/-- `HeaderValue::from_str` succeeds on this text? -/
def validHeaderValue (s : String) : Bool :=
  (strBytes s).all validHeaderValueByte

/-- One byte of a header name: `some` of the normalized (lowercased) byte
when the byte is a legal token byte, `none` otherwise. -/
def headerNameByte (b : Nat) : Option Nat :=
  if 97 ≤ b ∧ b ≤ 122 then some b
  else if 65 ≤ b ∧ b ≤ 90 then some (b + 32)
  else if 48 ≤ b ∧ b ≤ 57 then some b
  else if b ∈ [33, 35, 36, 37, 38, 39, 42, 43, 45, 46, 94, 95, 96, 124, 126] then some b
  else none

/-- `key.parse::<HeaderName>()`: `some` of the normalized name on success. -/
def parseHeaderName (s : String) : Option String :=
  let bs := strBytes s
  if bs.isEmpty then none
  else (bs.mapM headerNameByte).map (fun l => ⟨l.map Char.ofNat⟩)

/-! ### Request-header decoding (htmx.rs, `AsBool` / `AsOptionString`)

An inbound header value is a byte sequence (`List Nat`); an absent header is
`none`.  `HeaderValue::to_str` (http crate) succeeds iff every byte is
visible ASCII or tab, yielding the text of those bytes. -/

def visibleAscii (b : Nat) : Bool :=
  (32 ≤ b && b < 127) || b = 9

/-- `HeaderValue::to_str` (http crate). -/
def headerToStr (bs : List Nat) : Option String :=
  if bs.all visibleAscii then some ⟨bs.map Char.ofNat⟩ else none

/-- Rust `str::parse::<bool>`: succeeds exactly on "true" and "false". -/
def parse_bool (s : String) : Option Bool :=
  if s = "true" then some true else if s = "false" then some false else none

/-- `AsBool::as_bool` for `Option<&HeaderValue>` (htmx.rs, lines 480–493). -/
def as_bool (v : Option (List Nat)) : Bool :=
  match v with
  | some header =>
      match headerToStr header with
      | some s => (parse_bool s).getD false
      | none => false
  | none => false

/-- `AsOptionString::as_option_string` (htmx.rs, lines 495–508). -/
def as_option_string (v : Option (List Nat)) : Option String :=
  match v with
  | some header =>
      match headerToStr header with
      | some s => some s
      | none => none
  | none => none

/-! ### The accumulator state (htmx.rs, `HtmxInner`)

The payload type is a parameter: the trigger maps in htmx.rs hold
`Option<TriggerPayload>` while the serializer in middleware.rs consumes the
payloads as strings, so the state is generic and instantiated at `String`
for serializer-level facts. -/

inductive TriggerType
  | Standard
  | AfterSettle
  | AfterSwap
deriving DecidableEq

inductive DataType
  | string (s : Option String)
  | bool (b : Bool)

structure HtmxInner (α : Type) where
  standard_triggers : List (String × Option α)
  after_settle_triggers : List (String × Option α)
  after_swap_triggers : List (String × Option α)
  response_headers : List (String × String)
  request_headers : List (String × DataType)
  simple_trigger : List (TriggerType × Bool)

/-- `HtmxInner::new`: the eight request headers are decoded once; all
accumulator maps start empty (htmx.rs, lines 151–172). -/
def HtmxInner.new {α : Type} (req : String → Option (List Nat)) : HtmxInner α where
  standard_triggers := []
  after_settle_triggers := []
  after_swap_triggers := []
  response_headers := []
  request_headers :=
    [("hx-request", DataType.bool (as_bool (req "hx-request"))),
     ("hx-boosted", DataType.bool (as_bool (req "hx-boosted"))),
     ("hx-current-url", DataType.string (as_option_string (req "hx-current-url"))),
     ("hx-history-restore-request", DataType.bool (as_bool (req "hx-history-restore-request"))),
     ("hx-prompt", DataType.string (as_option_string (req "hx-prompt"))),
     ("hx-target", DataType.string (as_option_string (req "hx-target"))),
     ("hx-trigger", DataType.string (as_option_string (req "hx-trigger"))),
     ("hx-trigger-name", DataType.string (as_option_string (req "hx-trigger-name")))]
  simple_trigger := []

def get_bool_header {α : Type} (s : HtmxInner α) (header_name : String) : Bool :=
  ((omLookup s.request_headers header_name).map
    (fun d => match d with | DataType.bool b => b | _ => false)).getD false

def get_string_header {α : Type} (s : HtmxInner α) (header_name : String) : Option String :=
  ((omLookup s.request_headers header_name).map
    (fun d => match d with | DataType.string t => t | _ => none)).getD none

/-- `Htmx::from_inner` reads the three boolean flags once. -/
def is_htmx {α : Type} (s : HtmxInner α) : Bool := get_bool_header s "hx-request"

def boosted {α : Type} (s : HtmxInner α) : Bool := get_bool_header s "hx-boosted"

def history_restore_request {α : Type} (s : HtmxInner α) : Bool :=
  get_bool_header s "hx-history-restore-request"

def current_url {α : Type} (s : HtmxInner α) : Option String :=
  get_string_header s "hx-current-url"

def prompt {α : Type} (s : HtmxInner α) : Option String := get_string_header s "hx-prompt"

def target {α : Type} (s : HtmxInner α) : Option String := get_string_header s "hx-target"

def req_trigger {α : Type} (s : HtmxInner α) : Option String := get_string_header s "hx-trigger"

def trigger_name {α : Type} (s : HtmxInner α) : Option String :=
  get_string_header s "hx-trigger-name"

/-- `Htmx::trigger_event` (htmx.rs, lines 295–316): a payload-bearing call
marks the phase non-simple, then the event is inserted into the phase's map. -/
def trigger_event {α : Type} (s : HtmxInner α) (name : String) (payload : Option α)
    (trigger_type : Option TriggerType) : HtmxInner α :=
  let tt := trigger_type.getD TriggerType.Standard
  let s :=
    if payload.isSome then { s with simple_trigger := omInsert s.simple_trigger tt false }
    else s
  match tt with
  | TriggerType.Standard => { s with standard_triggers := omInsert s.standard_triggers name payload }
  | TriggerType.AfterSettle =>
      { s with after_settle_triggers := omInsert s.after_settle_triggers name payload }
  | TriggerType.AfterSwap =>
      { s with after_swap_triggers := omInsert s.after_swap_triggers name payload }

def get_triggers {α : Type} (s : HtmxInner α) (trigger_type : TriggerType) :
    List (String × Option α) :=
  match trigger_type with
  | TriggerType.Standard => s.standard_triggers
  | TriggerType.AfterSettle => s.after_settle_triggers
  | TriggerType.AfterSwap => s.after_swap_triggers

/-- `Htmx::is_simple_trigger` (htmx.rs, lines 428–449): stored flag, default
`true`. -/
def is_simple_trigger {α : Type} (s : HtmxInner α) (trigger_type : TriggerType) : Bool :=
  (omLookup s.simple_trigger trigger_type).getD true

/-! ### Middleware finalization (middleware.rs, lines 149–201)

`process_trigger_header` returns early on an empty map, serializes with
`simple_header` or `trigger_json`, and inserts the header only when
`HeaderValue::from_str` succeeds (otherwise it logs a warning and skips).
The flat `response_headers` loop does the same per entry, also skipping
entries whose name fails to parse as a `HeaderName`. -/

/-- The value `process_trigger_header` would set for one phase:
`none` when nothing is emitted (empty map or invalid header value). -/
def serialize_trigger (trigger_map : List (String × Option String)) (simple : Bool) :
    Option String :=
  if trigger_map.isEmpty then none
  else
    let triggers := if simple then simple_header trigger_map else trigger_json trigger_map
    if validHeaderValue triggers then some triggers else none

def process_trigger_header (res : List (String × String)) (header_name : String)
    (trigger_map : List (String × Option String)) (simple : Bool) :
    List (String × String) :=
  match serialize_trigger trigger_map simple with
  | some value => omInsert res header_name value
  | none => res

def headerName : TriggerType → String
  | TriggerType.Standard => "hx-trigger"
  | TriggerType.AfterSettle => "hx-trigger-after-settle"
  | TriggerType.AfterSwap => "hx-trigger-after-swap"

/-- The header emitted for one phase, as an optional (name-independent)
value. -/
def phase_header (s : HtmxInner String) (trigger_type : TriggerType) : Option String :=
  serialize_trigger (get_triggers s trigger_type) (is_simple_trigger s trigger_type)

/-- The flat `response_headers` loop of `InnerHtmxMiddleware::call`
(middleware.rs, lines 187–201), translated clause for clause. -/
def flat_header_loop (res : List (String × String)) (entries : List (String × String)) :
    List (String × String) :=
  entries.foldl
    (fun res e =>
      match parseHeaderName e.1 with
      | some key =>
          if validHeaderValue e.2 then omInsert res key e.2 else res
      | none => res)
    res

/-- The three `process_trigger_header` calls of `InnerHtmxMiddleware::call`,
in source order. -/
def triggers_part (s : HtmxInner String) (res : List (String × String)) :
    List (String × String) :=
  process_trigger_header
    (process_trigger_header
      (process_trigger_header res (headerName TriggerType.Standard)
        (get_triggers s TriggerType.Standard) (is_simple_trigger s TriggerType.Standard))
      (headerName TriggerType.AfterSettle)
      (get_triggers s TriggerType.AfterSettle) (is_simple_trigger s TriggerType.AfterSettle))
    (headerName TriggerType.AfterSwap)
    (get_triggers s TriggerType.AfterSwap) (is_simple_trigger s TriggerType.AfterSwap)

/-- Response-finalization of `InnerHtmxMiddleware::call`: the three trigger
phases, then the flat response-header map. -/
def middleware_call (s : HtmxInner String) (res : List (String × String)) :
    List (String × String) :=
  flat_header_loop (triggers_part s res) s.response_headers

/-! ### JSON values (serde_json::Value) and their compact serialization

Numbers are modelled as integers, which covers every payload the claims
touch.  `jstr` is serde_json's string escaping (quote, backslash, and the
control characters). -/

inductive Json
  | null
  | bool (b : Bool)
  | num (n : Int)
  | str (s : String)
  | arr (elems : List Json)
  | obj (fields : List (String × Json))

def hexDigitChar (n : Nat) : Char :=
  if n < 10 then Char.ofNat (48 + n) else Char.ofNat (87 + n)

/-- serde_json escaping for one character inside a JSON string. -/
def jescapeChar (c : Char) : List Char :=
  if c = qm then [bsl, qm]
  else if c = bsl then [bsl, bsl]
  else if c = Char.ofNat 8 then [bsl, 'b']
  else if c = Char.ofNat 12 then [bsl, 'f']
  else if c = Char.ofNat 10 then [bsl, 'n']
  else if c = Char.ofNat 13 then [bsl, 'r']
  else if c = Char.ofNat 9 then [bsl, 't']
  else if c.toNat < 32 then [bsl, 'u', '0', '0', hexDigitChar (c.toNat / 16), hexDigitChar (c.toNat % 16)]
  else [c]

/-- serde_json serialization of a string (with surrounding quotes). -/
def jstr (s : String) : String :=
  ⟨qm :: (s.data.map jescapeChar).flatten ++ [qm]⟩

mutual

def jserialize : Json → String
  | Json.null => "null"
  | Json.bool true => "true"
  | Json.bool false => "false"
  | Json.num n => toString n
  | Json.str s => jstr s
  | Json.arr xs => "[" ++ jserializeArr xs ++ "]"
  | Json.obj fs => lbS ++ jserializeObj fs ++ rbS

def jserializeArr : List Json → String
  | [] => ""
  | [x] => jserialize x
  | x :: y :: xs => jserialize x ++ "," ++ jserializeArr (y :: xs)

def jserializeObj : List (String × Json) → String
  | [] => ""
  | [(k, v)] => jstr k ++ ":" ++ jserialize v
  | (k, v) :: f :: fs => jstr k ++ ":" ++ jserialize v ++ "," ++ jserializeObj (f :: fs)

end

/-! ### A JSON recognizer

Decides whether a text is well-formed JSON (RFC 8259 grammar).  It is used
to express that some serializer outputs are *not* well-formed JSON objects.
The scanner functions return the unconsumed suffix on success.  Fuel is
always instantiated with more than the input length, and every recursive
call consumes at least one character first, so fuel never causes a valid
text to be rejected. -/

def jsonWsChar (c : Char) : Bool :=
  c = ' ' || c = Char.ofNat 9 || c = Char.ofNat 10 || c = Char.ofNat 13

def skipJsonWs : List Char → List Char
  | [] => []
  | c :: cs => if jsonWsChar c then skipJsonWs cs else c :: cs

def isHexChar (c : Char) : Bool :=
  c.isDigit || ('a' ≤ c && c ≤ 'f') || ('A' ≤ c && c ≤ 'F')

/-- Scan a JSON string body, starting just after the opening quote. -/
def scanStringBody : Nat → List Char → Option (List Char)
  | 0, _ => none
  | _, [] => none
  | fuel + 1, c :: cs =>
    if c = qm then some cs
    else if c = bsl then
      match cs with
      | [] => none
      | e :: cs' =>
        if e = qm || e = bsl || e = '/' || e = 'b' || e = 'f' || e = 'n' || e = 'r' || e = 't' then
          scanStringBody fuel cs'
        else if e = 'u' then
          match cs' with
          | h1 :: h2 :: h3 :: h4 :: rest =>
            if isHexChar h1 && isHexChar h2 && isHexChar h3 && isHexChar h4 then
              scanStringBody fuel rest
            else none
          | _ => none
        else none
    else if c.toNat < 32 then none
    else scanStringBody fuel cs

/-- Scan an optional fraction part. -/
def scanFrac : List Char → Option (List Char)
  | c :: cs =>
      if c = '.' then
        match cs with
        | d :: _ => if d.isDigit then some (cs.dropWhile Char.isDigit) else none
        | [] => none
      else some (c :: cs)
  | [] => some []

/-- Scan an optional exponent part. -/
def scanExp : List Char → Option (List Char)
  | c :: cs =>
      if c = 'e' || c = 'E' then
        let cs2 := match cs with
          | s :: rest => if s = '+' || s = '-' then rest else cs
          | [] => cs
        match cs2 with
        | d :: _ => if d.isDigit then some (cs2.dropWhile Char.isDigit) else none
        | [] => none
      else some (c :: cs)
  | [] => some []

def scanNumber (cs : List Char) : Option (List Char) :=
  let cs1 := match cs with
    | c :: rest => if c = '-' then rest else cs
    | [] => cs
  match cs1 with
  | [] => none
  | c :: rest =>
    if c = '0' then (scanFrac rest).bind scanExp
    else if c.isDigit then (scanFrac (rest.dropWhile Char.isDigit)).bind scanExp
    else none

/-- Require `pre` as the next characters. -/
def stripPre (pre : List Char) (cs : List Char) : Option (List Char) :=
  match pre, cs with
  | [], rest => some rest
  | p :: ps, c :: rest => if c = p then stripPre ps rest else none
  | _ :: _, [] => none

mutual

def scanValue : Nat → List Char → Option (List Char)
  | 0, _ => none
  | fuel + 1, cs =>
    match cs with
    | [] => none
    | c :: rest =>
      if c = qm then scanStringBody (rest.length + 1) rest
      else if c = lbrace then
        match skipJsonWs rest with
        | d :: rest2 => if d = rbrace then some rest2 else scanMembers fuel (d :: rest2)
        | [] => none
      else if c = '[' then
        match skipJsonWs rest with
        | d :: rest2 => if d = ']' then some rest2 else scanElems fuel (d :: rest2)
        | [] => none
      else if c = 't' then stripPre ['r', 'u', 'e'] rest
      else if c = 'f' then stripPre ['a', 'l', 's', 'e'] rest
      else if c = 'n' then stripPre ['u', 'l', 'l'] rest
      else scanNumber (c :: rest)

/-- Scan object members, positioned at the start of a key. -/
def scanMembers : Nat → List Char → Option (List Char)
  | 0, _ => none
  | fuel + 1, cs =>
    match cs with
    | [] => none
    | c :: rest =>
      if c = qm then
        match scanStringBody (rest.length + 1) rest with
        | some afterKey =>
          match skipJsonWs afterKey with
          | d :: rest2 =>
            if d = ':' then
              match scanValue fuel (skipJsonWs rest2) with
              | some afterVal =>
                match skipJsonWs afterVal with
                | e :: rest3 =>
                  if e = ',' then scanMembers fuel (skipJsonWs rest3)
                  else if e = rbrace then some rest3
                  else none
                | [] => none
              | none => none
            else none
          | [] => none
        | none => none
      else none

/-- Scan array elements, positioned at the start of an element. -/
def scanElems : Nat → List Char → Option (List Char)
  | 0, _ => none
  | fuel + 1, cs =>
    match scanValue fuel cs with
    | some afterVal =>
      match skipJsonWs afterVal with
      | e :: rest =>
        if e = ',' then scanElems fuel (skipJsonWs rest)
        else if e = ']' then some rest
        else none
      | [] => none
    | none => none

end

def wellFormedJsonValue (s : String) : Bool :=
  match scanValue (s.data.length + 1) (skipJsonWs s.data) with
  | some rest => (skipJsonWs rest).isEmpty
  | none => false

def wellFormedJsonObject (s : String) : Bool :=
  (match skipJsonWs s.data with | c :: _ => c = lbrace | [] => false) && wellFormedJsonValue s

/-! ### `SwapType` and the `HxLocation` builder (htmx.rs / location.rs)

The Rust struct derives `Serialize` with `rename_all = "camelCase"` (every
field name is a single lowercase word, so the names are unchanged) and
`skip_serializing_if` on each optional field (`Option::is_none`, resp.
`BTreeMap::is_empty` for `headers`).  Builder methods that share a name
with a field carry a prime. -/

inductive SwapType
  | InnerHtml
  | OuterHtml
  | BeforeBegin
  | AfterBegin
  | BeforeEnd
  | AfterEnd
  | Delete
  | None

def SwapType.toStr : SwapType → String
  | SwapType.InnerHtml => "innerHTML"
  | SwapType.OuterHtml => "outerHTML"
  | SwapType.BeforeBegin => "beforebegin"
  | SwapType.AfterBegin => "afterbegin"
  | SwapType.BeforeEnd => "beforeend"
  | SwapType.AfterEnd => "afterend"
  | SwapType.Delete => "delete"
  | SwapType.None => "none"

/-- `BTreeMap::insert`: keep the list sorted by key, replacing on equality. -/
def btInsert (m : List (String × String)) (k : String) (v : String) :
    List (String × String) :=
  match m with
  | [] => [(k, v)]
  | e :: es =>
      if k < e.1 then (k, v) :: e :: es
      else if k = e.1 then (k, v) :: es
      else e :: btInsert es k v

structure HxLocation where
  path : String
  target : Option String
  source : Option String
  event : Option String
  swap : Option String
  headers : List (String × String)
  values : Option Json
  handler : Option String
  select : Option String
  push : Option Json
  replace : Option String

def HxLocation.new (path : String) : HxLocation where
  path := path
  target := none
  source := none
  event := none
  swap := none
  headers := []
  values := none
  handler := none
  select := none
  push := none
  replace := none

def HxLocation.target' (l : HxLocation) (selector : String) : HxLocation :=
  { l with target := some selector }

def HxLocation.source' (l : HxLocation) (selector : String) : HxLocation :=
  { l with source := some selector }

def HxLocation.event' (l : HxLocation) (event : String) : HxLocation :=
  { l with event := some event }

def HxLocation.swap' (l : HxLocation) (swap : SwapType) : HxLocation :=
  { l with swap := some swap.toStr }

def HxLocation.handler' (l : HxLocation) (handler : String) : HxLocation :=
  { l with handler := some handler }

def HxLocation.select' (l : HxLocation) (selector : String) : HxLocation :=
  { l with select := some selector }

def HxLocation.header (l : HxLocation) (name : String) (value : String) : HxLocation :=
  { l with headers := btInsert l.headers name value }

def HxLocation.values_json (l : HxLocation) (values : Json) : HxLocation :=
  { l with values := some values }

def HxLocation.disable_push (l : HxLocation) : HxLocation :=
  { l with push := some (Json.bool false) }

def HxLocation.push_path (l : HxLocation) (path : String) : HxLocation :=
  { l with push := some (Json.str path) }

def HxLocation.replace' (l : HxLocation) (path : String) : HxLocation :=
  { l with replace := some path }

def optStrField (name : String) : Option String → List (String × Json)
  | some v => [(name, Json.str v)]
  | none => []

def optJsonField (name : String) : Option Json → List (String × Json)
  | some v => [(name, v)]
  | none => []

/-- The serde serialization of `HxLocation` as a JSON value: fields in
declaration order, optional fields omitted when unset, `headers` omitted
when empty. -/
def HxLocation.toJson (l : HxLocation) : Json :=
  Json.obj
    ([("path", Json.str l.path)]
      ++ optStrField "target" l.target
      ++ optStrField "source" l.source
      ++ optStrField "event" l.event
      ++ optStrField "swap" l.swap
      ++ (if l.headers.isEmpty then []
          else [("headers", Json.obj (l.headers.map (fun e => (e.1, Json.str e.2))))])
      ++ optJsonField "values" l.values
      ++ optStrField "handler" l.handler
      ++ optStrField "select" l.select
      ++ optJsonField "push" l.push
      ++ optStrField "replace" l.replace)

/-- `HxLocation::into_header_value` (location.rs, lines 135–137). -/
def HxLocation.into_header_value (l : HxLocation) : String :=
  jserialize l.toJson

/-- `Htmx::redirect_with_location` (htmx.rs, lines 345–350). -/
def redirect_with_location {α : Type} (s : HtmxInner α) (location : HxLocation) :
    HtmxInner α :=
  { s with
    response_headers := omInsert s.response_headers "hx-location" location.into_header_value }

/-! ## Lemmas about the ordered map -/

theorem omLookup_omInsert_self {κ α : Type} [DecidableEq κ] (m : List (κ × α)) (k : κ)
    (v : α) : omLookup (omInsert m k v) k = some v := by
  induction m with
  | nil => simp [omInsert, omLookup]
  | cons e es ih =>
      by_cases h : e.1 = k
      · simp [omInsert, omLookup, h]
      · simp [omInsert, omLookup, h, ih]

theorem omLookup_omInsert_ne {κ α : Type} [DecidableEq κ] (m : List (κ × α)) (k k' : κ)
    (v : α) (h : k' ≠ k) : omLookup (omInsert m k' v) k = omLookup m k := by
  induction m with
  | nil => simp [omInsert, omLookup, h]
  | cons e es ih =>
      by_cases he : e.1 = k'
      · simp [omInsert, omLookup, he, h]
      · by_cases hk : e.1 = k
        · simp [omInsert, omLookup, he, hk, Ne.symm h]
        · simp [omInsert, omLookup, he, hk, ih]

theorem map_fst_omInsert_of_mem {κ α : Type} [DecidableEq κ] {m : List (κ × α)} {k : κ}
    (v : α) (h : k ∈ m.map Prod.fst) :
    (omInsert m k v).map Prod.fst = m.map Prod.fst := by
  induction m with
  | nil => simp at h
  | cons e es ih =>
      by_cases he : e.1 = k
      · simp [omInsert, he]
      · have hmem : k ∈ es.map Prod.fst := by
          simp only [List.map_cons, List.mem_cons] at h
          rcases h with h | h
          · exact absurd h.symm he
          · exact h
        simp [omInsert, he, ih hmem]

theorem omInsert_of_not_mem {κ α : Type} [DecidableEq κ] {m : List (κ × α)} {k : κ}
    (v : α) (h : k ∉ m.map Prod.fst) : omInsert m k v = m ++ [(k, v)] := by
  induction m with
  | nil => simp [omInsert]
  | cons e es ih =>
      simp only [List.map_cons, List.mem_cons, not_or] at h
      simp [omInsert, Ne.symm h.1, ih h.2]

theorem omInsert_ne_nil {κ α : Type} [DecidableEq κ] (m : List (κ × α)) (k : κ) (v : α) :
    omInsert m k v ≠ [] := by
  cases m with
  | nil => simp [omInsert]
  | cons e es =>
      by_cases h : e.1 = k <;> simp [omInsert, h]

/-! ## Characterizing the two serializers

`comma_joinF f` is "the `f`-images joined by commas, with no leading or
trailing comma" — the shape the specification describes.  The fold-and-pop
implementations are proved equal to it. -/

def joinAll {β : Type} (f : β → String) : List β → String
  | [] => ""
  | e :: es => f e ++ "," ++ joinAll f es

def comma_joinF {β : Type} (f : β → String) : List β → String
  | [] => ""
  | [e] => f e
  | e :: e2 :: es => f e ++ "," ++ comma_joinF f (e2 :: es)

theorem foldl_append_comma {β : Type} (f : β → String) :
    ∀ (m : List β) (acc : String),
      m.foldl (fun a e => a ++ f e ++ ",") acc = acc ++ joinAll f m := by
  intro m
  induction m with
  | nil => intro acc; simp [joinAll]
  | cons e es ih =>
      intro acc
      rw [List.foldl_cons, ih]
      simp [joinAll, String.append_assoc]

theorem joinAll_data_ne_nil {β : Type} (f : β → String) (e : β) (es : List β) :
    (joinAll f (e :: es)).data ≠ [] := by
  simp [joinAll]

theorem strPop_append_of_ne_nil (s t : String) (h : t.data ≠ []) :
    strPop (s ++ t) = s ++ strPop t := by
  apply String.ext
  simp [strPop, h]

theorem strPop_joinAll {β : Type} (f : β → String) :
    ∀ m : List β, strPop (joinAll f m) = comma_joinF f m := by
  intro m
  induction m with
  | nil => apply String.ext; simp [joinAll, comma_joinF, strPop]
  | cons e es ih =>
      cases es with
      | nil =>
          apply String.ext
          simp [joinAll, comma_joinF, strPop]
      | cons e2 es2 =>
          have hne := joinAll_data_ne_nil f e2 es2
          calc strPop (joinAll f (e :: e2 :: es2))
              = strPop ((f e ++ ",") ++ joinAll f (e2 :: es2)) := by
                simp [joinAll, String.append_assoc]
            _ = (f e ++ ",") ++ strPop (joinAll f (e2 :: es2)) :=
                strPop_append_of_ne_nil _ _ hne
            _ = comma_joinF f (e :: e2 :: es2) := by
                simp [comma_joinF, ih, String.append_assoc]

/-- `simple_header` is exactly the comma join of the keys. -/
theorem simple_header_eq (m : List (String × Option String)) :
    simple_header m = comma_joinF (fun e => e.1) m := by
  unfold simple_header
  rw [foldl_append_comma (fun e => e.1) m "", String.empty_append, strPop_joinAll]

/-- The text `trigger_json` renders for one entry, exactly as the code
formats it: the key in bare quotes, then `": "`, then `null`, the payload
spliced verbatim when its trimmed text starts with a left brace, or the
payload in bare quotes otherwise — with no escaping anywhere. -/
def entryRendered (e : String × Option String) : String :=
  qS ++ e.1 ++ qS ++ ": " ++
    (match e.2 with
     | some v => if startsWithLBrace (strTrim v) then v else qS ++ v ++ qS
     | none => "null")

theorem trigger_entry_eq (acc : String) (e : String × Option String) :
    trigger_entry acc e.1 e.2 = acc ++ entryRendered e ++ "," := by
  obtain ⟨k, v⟩ := e
  cases v with
  | none =>
      simp [trigger_entry, entryRendered, String.append_assoc,
        show (": " : String) ++ ("null" ++ ",") = ": null," from rfl]
  | some v =>
      by_cases h : startsWithLBrace (strTrim v) <;>
        simp [trigger_entry, entryRendered, h, String.append_assoc]

theorem trigger_json_eq (m : List (String × Option String)) (h : m ≠ []) :
    trigger_json m = lbS ++ comma_joinF entryRendered m ++ rbS := by
  unfold trigger_json
  have hfold : ∀ (l : List (String × Option String)) (acc : String),
      l.foldl (fun acc e => trigger_entry acc e.1 e.2) acc =
      l.foldl (fun a e => a ++ entryRendered e ++ ",") acc := by
    intro l
    induction l with
    | nil => intro acc; rfl
    | cons e es ih => intro acc; simp [List.foldl_cons, trigger_entry_eq, ih]
  rw [hfold, foldl_append_comma entryRendered m lbS]
  obtain ⟨e, es, rfl⟩ : ∃ e es, m = e :: es := by
    cases m with
    | nil => exact absurd rfl h
    | cons e es => exact ⟨e, es, rfl⟩
  rw [strPop_append_of_ne_nil _ _ (joinAll_data_ne_nil entryRendered e es),
    strPop_joinAll]
  apply String.ext
  simp [strPush, rbS]

/-! ## Claims C2, C10, C1 -/

/-- C2: for every lifecycle phase at response finalization, an empty event
map emits no header at all, and a non-empty map whose "needs JSON" flag is
unset serializes to exactly the event names joined by commas in insertion
order with no leading or trailing comma (the emission itself is further
subject only to the header-validity skip, which always holds for plain
names such as "event1,event2"). -/
theorem c2_empty_or_comma_list (s : HtmxInner String) (tt : TriggerType) :
    (get_triggers s tt = [] → phase_header s tt = none) ∧
    (get_triggers s tt ≠ [] → is_simple_trigger s tt = true →
      simple_header (get_triggers s tt) =
          comma_joinF (fun e => e.1) (get_triggers s tt) ∧
        (validHeaderValue (simple_header (get_triggers s tt)) = true →
          phase_header s tt =
            some (comma_joinF (fun e => e.1) (get_triggers s tt)))) := by
  refine ⟨fun h => ?_, fun h hs => ⟨simple_header_eq _, fun hv => ?_⟩⟩
  · simp [phase_header, serialize_trigger, h]
  · have hne : (get_triggers s tt).isEmpty = false := by
      cases hm : get_triggers s tt with
      | nil => exact absurd hm h
      | cons a l => rfl
    rw [simple_header_eq] at hv
    simp [phase_header, serialize_trigger, hne, hs, simple_header_eq, hv]

/-- C2 witness: recording "event1" then "event2" with no payloads yields the
Standard header value "event1,event2". -/
theorem c2_empty_or_comma_list_witness :
    phase_header (trigger_event (trigger_event
        (HtmxInner.new (fun _ => none) : HtmxInner String) "event1" none none)
        "event2" none none) TriggerType.Standard = some "event1,event2" := by
  have h := (c2_empty_or_comma_list (trigger_event (trigger_event
    (HtmxInner.new (fun _ => none) : HtmxInner String) "event1" none none)
    "event2" none none) TriggerType.Standard).2 (by decide) (by decide)
  exact (h.2 (by decide)).trans (by decide)

/-- C10: in the serializer's JSON mode, every event renders as its name in
bare double quotes (no escaping), a colon-space, and then either `null`, the
payload spliced verbatim and unquoted when its trimmed text starts with a
left brace, or the payload in bare double quotes with no escaping; fragments
are comma-joined between one brace pair.  Consequently some inputs — here an
event name containing a double quote — yield header text that is not a
well-formed JSON object. -/
theorem c10_verbatim_splice_and_no_escaping :
    (∀ m : List (String × Option String), m ≠ [] →
        trigger_json m = lbS ++ comma_joinF entryRendered m ++ rbS) ∧
    wellFormedJsonObject (trigger_json [("x\"y", none)]) = false := by
  exact ⟨trigger_json_eq, by decide⟩

/-- C10 witness: the shape theorem applied at a concrete two-entry map,
together with the resulting literal header text. -/
theorem c10_verbatim_splice_and_no_escaping_witness :
    trigger_json [("message", some "deleted"), ("status", none)] =
        lbS ++ comma_joinF entryRendered
          [("message", some "deleted"), ("status", none)] ++ rbS ∧
      trigger_json [("message", some "deleted"), ("status", none)] =
        "\x7b\"message\": \"deleted\",\"status\": null\x7d" := by
  exact ⟨c10_verbatim_splice_and_no_escaping.1 _ (by decide), by decide⟩

/-- C1: evaluation at the input of the crate's own test
`test_string_payload_that_looks_like_json` (lib.rs): recording the event
"looks-like-json" with the bare string payload `\x7bnot: "json"` makes the
middleware emit a header text that is not a well-formed JSON object (the
payload is spliced verbatim), whereas the claim — and the test, which
`serde_json::from_str`s the header — require the JSON-object form shown in
the third conjunct. -/
theorem c1_string_payload_header_not_json :
    phase_header (trigger_event (HtmxInner.new (fun _ => none) : HtmxInner String)
        "looks-like-json" (some "\x7bnot: \"json\"") none) TriggerType.Standard =
      some "\x7b\"looks-like-json\": \x7bnot: \"json\"\x7d" ∧
    wellFormedJsonObject "\x7b\"looks-like-json\": \x7bnot: \"json\"\x7d" = false ∧
    jserialize (Json.obj [("looks-like-json", Json.str "\x7bnot: \"json\"")]) =
      "\x7b\"looks-like-json\":\"\x7bnot: \\\"json\\\"\"\x7d" := by
  exact ⟨by decide, by decide, by decide⟩

/-! ## Sequences of `trigger_event` calls -/

/-- One handler call to `Htmx::trigger_event`, with the arguments the Rust
method receives. -/
structure RecordedCall (α : Type) where
  name : String
  payload : Option α
  trigger_type : Option TriggerType

def apply_events {α : Type} (s : HtmxInner α) (evs : List (RecordedCall α)) : HtmxInner α :=
  evs.foldl (fun s e => trigger_event s e.name e.payload e.trigger_type) s

theorem apply_events_nil {α : Type} (s : HtmxInner α) : apply_events s [] = s := rfl

theorem apply_events_cons {α : Type} (s : HtmxInner α) (e : RecordedCall α)
    (evs : List (RecordedCall α)) :
    apply_events s (e :: evs) =
      apply_events (trigger_event s e.name e.payload e.trigger_type) evs := rfl

theorem simple_trigger_trigger_event {α : Type} (s : HtmxInner α) (n : String)
    (p : Option α) (t : Option TriggerType) :
    (trigger_event s n p t).simple_trigger =
      if p.isSome then omInsert s.simple_trigger (t.getD TriggerType.Standard) false
      else s.simple_trigger := by
  cases ht : t.getD TriggerType.Standard <;> cases p <;> simp [trigger_event, ht]

theorem get_triggers_trigger_event {α : Type} (s : HtmxInner α) (n : String) (p : Option α)
    (t : Option TriggerType) (tt : TriggerType) :
    get_triggers (trigger_event s n p t) tt =
      if t.getD TriggerType.Standard = tt then omInsert (get_triggers s tt) n p
      else get_triggers s tt := by
  cases ht : t.getD TriggerType.Standard <;> cases tt <;> cases p <;>
    simp [trigger_event, get_triggers, ht]

theorem is_simple_trigger_trigger_event {α : Type} (s : HtmxInner α) (n : String)
    (p : Option α) (t : Option TriggerType) (tt : TriggerType) :
    is_simple_trigger (trigger_event s n p t) tt =
      if p.isSome && (t.getD TriggerType.Standard == tt) then false
      else is_simple_trigger s tt := by
  unfold is_simple_trigger
  rw [show (trigger_event s n p t).simple_trigger =
      if p.isSome then omInsert s.simple_trigger (t.getD TriggerType.Standard) false
      else s.simple_trigger from simple_trigger_trigger_event s n p t]
  cases p with
  | none => simp
  | some pv =>
      by_cases h : t.getD TriggerType.Standard = tt
      · simp [h, omLookup_omInsert_self]
      · simp [h, omLookup_omInsert_ne _ _ _ _ h]

theorem is_simple_false_apply_events {α : Type} (tt : TriggerType) :
    ∀ (evs : List (RecordedCall α)) (s : HtmxInner α),
      is_simple_trigger s tt = false →
      is_simple_trigger (apply_events s evs) tt = false := by
  intro evs
  induction evs with
  | nil => intro s h; exact h
  | cons e evs ih =>
      intro s h
      rw [apply_events_cons]
      apply ih
      rw [is_simple_trigger_trigger_event]
      by_cases hc : e.payload.isSome && (e.trigger_type.getD TriggerType.Standard == tt) <;>
        simp [hc, h]

theorem get_triggers_ne_nil_apply_events {α : Type} (tt : TriggerType) :
    ∀ (evs : List (RecordedCall α)) (s : HtmxInner α),
      get_triggers s tt ≠ [] →
      get_triggers (apply_events s evs) tt ≠ [] := by
  intro evs
  induction evs with
  | nil => intro s h; exact h
  | cons e evs ih =>
      intro s h
      rw [apply_events_cons]
      apply ih
      rw [get_triggers_trigger_event]
      by_cases hc : e.trigger_type.getD TriggerType.Standard = tt
      · simp only [hc, if_pos rfl]
        exact omInsert_ne_nil _ _ _
      · simpa [hc] using h

/-- C3: once a `trigger_event` call for a phase carries a payload, the
phase's "needs JSON" flag (`is_simple_trigger = false`) holds after every
later sequence of calls, the phase's map stays non-empty, and the phase's
serialization is the `trigger_json` JSON-object form (emitted whenever it is
a valid header value). -/
theorem c3_needs_json_is_permanent (s : HtmxInner String) (n : String) (p : String)
    (tt : TriggerType) (evs : List (RecordedCall String)) :
    is_simple_trigger (apply_events (trigger_event s n (some p) (some tt)) evs) tt = false ∧
    get_triggers (apply_events (trigger_event s n (some p) (some tt)) evs) tt ≠ [] ∧
    phase_header (apply_events (trigger_event s n (some p) (some tt)) evs) tt =
      (if validHeaderValue (trigger_json
            (get_triggers (apply_events (trigger_event s n (some p) (some tt)) evs) tt)) then
        some (trigger_json
          (get_triggers (apply_events (trigger_event s n (some p) (some tt)) evs) tt))
      else none) := by
  have hbase : is_simple_trigger (trigger_event s n (some p) (some tt)) tt = false := by
    rw [is_simple_trigger_trigger_event]; simp
  have hsimple := is_simple_false_apply_events tt evs _ hbase
  have hmapbase : get_triggers (trigger_event s n (some p) (some tt)) tt ≠ [] := by
    rw [get_triggers_trigger_event]; simp [omInsert_ne_nil]
  have hmap := get_triggers_ne_nil_apply_events tt evs _ hmapbase
  refine ⟨hsimple, hmap, ?_⟩
  have hempty : (get_triggers (apply_events (trigger_event s n (some p) (some tt)) evs) tt).isEmpty = false := by
    cases hm : get_triggers (apply_events (trigger_event s n (some p) (some tt)) evs) tt with
    | nil => exact absurd hm hmap
    | cons a l => rfl
  simp [phase_header, serialize_trigger, hempty, hsimple]

/-- C3 witness: after "a" with a payload and then "b" without one in the
same phase, the flag is still false and the JSON form is emitted. -/
theorem c3_needs_json_is_permanent_witness :
    is_simple_trigger (apply_events (trigger_event
        (HtmxInner.new (fun _ => none) : HtmxInner String) "a" (some "x")
        (some TriggerType.Standard)) [⟨"b", none, none⟩]) TriggerType.Standard = false ∧
      phase_header (apply_events (trigger_event
        (HtmxInner.new (fun _ => none) : HtmxInner String) "a" (some "x")
        (some TriggerType.Standard)) [⟨"b", none, none⟩]) TriggerType.Standard =
        some "\x7b\"a\": \"x\",\"b\": null\x7d" := by
  have h := c3_needs_json_is_permanent (HtmxInner.new (fun _ => none) : HtmxInner String)
    "a" "x" TriggerType.Standard [⟨"b", none, none⟩]
  exact ⟨h.1, h.2.2.trans (by decide)⟩

theorem comma_joinF_map {β : Type} (f : β → String) :
    ∀ l : List β, comma_joinF f l = comma_joinF id (l.map f) := by
  intro l
  induction l with
  | nil => rfl
  | cons e es ih =>
      cases es with
      | nil => rfl
      | cons e2 es2 => simp [comma_joinF, ih]

/-- C4: recording a second event with an already-present name replaces the
stored payload in place: the key list (and with it the comma-list
serialization) is unchanged, and the lookup yields the new payload. -/
theorem c4_overwrite_keeps_position (s : HtmxInner String) (k : String)
    (p : Option String) (tt : TriggerType)
    (h : k ∈ (get_triggers s tt).map Prod.fst) :
    ((get_triggers (trigger_event s k p (some tt)) tt).map Prod.fst =
        (get_triggers s tt).map Prod.fst) ∧
    omLookup (get_triggers (trigger_event s k p (some tt)) tt) k = some p ∧
    simple_header (get_triggers (trigger_event s k p (some tt)) tt) =
      simple_header (get_triggers s tt) := by
  have hg : get_triggers (trigger_event s k p (some tt)) tt =
      omInsert (get_triggers s tt) k p := by
    rw [get_triggers_trigger_event]; simp
  have hkeys : (get_triggers (trigger_event s k p (some tt)) tt).map Prod.fst =
      (get_triggers s tt).map Prod.fst := by
    rw [hg]; exact map_fst_omInsert_of_mem p h
  refine ⟨hkeys, ?_, ?_⟩
  · rw [hg]; exact omLookup_omInsert_self _ _ _
  · rw [simple_header_eq, simple_header_eq,
      comma_joinF_map (fun e => e.1) (get_triggers (trigger_event s k p (some tt)) tt),
      comma_joinF_map (fun e => e.1) (get_triggers s tt)]
    exact congrArg (comma_joinF id) hkeys

/-- C4 witness: recording "dup" without a payload and then "dup" with one
keeps the single key in place and stores the new payload. -/
theorem c4_overwrite_keeps_position_witness :
    ((get_triggers (trigger_event (trigger_event
        (HtmxInner.new (fun _ => none) : HtmxInner String) "dup" none none)
        "dup" (some "x") (some TriggerType.Standard)) TriggerType.Standard).map Prod.fst =
      ["dup"]) ∧
    omLookup (get_triggers (trigger_event (trigger_event
        (HtmxInner.new (fun _ => none) : HtmxInner String) "dup" none none)
        "dup" (some "x") (some TriggerType.Standard)) TriggerType.Standard) "dup" =
      some (some "x") := by
  have h := c4_overwrite_keeps_position (trigger_event
    (HtmxInner.new (fun _ => none) : HtmxInner String) "dup" none none)
    "dup" (some "x") TriggerType.Standard (by decide)
  exact ⟨h.1.trans (by decide), h.2.1⟩

/-! ## Phase independence -/

theorem phase_components_apply_events {α : Type} (tt : TriggerType) :
    ∀ (evs : List (RecordedCall α)) (s s' : HtmxInner α),
      get_triggers s tt = get_triggers s' tt →
      is_simple_trigger s tt = is_simple_trigger s' tt →
      get_triggers (apply_events s evs) tt = get_triggers (apply_events s' evs) tt ∧
        is_simple_trigger (apply_events s evs) tt =
          is_simple_trigger (apply_events s' evs) tt := by
  intro evs
  induction evs with
  | nil => intro s s' h1 h2; exact ⟨h1, h2⟩
  | cons e evs ih =>
      intro s s' h1 h2
      rw [apply_events_cons, apply_events_cons]
      apply ih
      · rw [get_triggers_trigger_event, get_triggers_trigger_event, h1]
      · rw [is_simple_trigger_trigger_event, is_simple_trigger_trigger_event, h2]

theorem phase_header_congr (s s' : HtmxInner String) (tt : TriggerType)
    (h1 : get_triggers s tt = get_triggers s' tt)
    (h2 : is_simple_trigger s tt = is_simple_trigger s' tt) :
    phase_header s tt = phase_header s' tt := by
  unfold phase_header
  rw [h1, h2]

/-- C5: each phase's emitted header is determined by the calls recorded for
that phase alone — filtering the call sequence down to one phase leaves that
phase's header unchanged — and, concretely, an event recorded only for
AfterSettle never reaches the Standard header. -/
theorem c5_phases_are_independent :
    (∀ (s : HtmxInner String) (evs : List (RecordedCall String)) (tt : TriggerType),
        phase_header (apply_events s evs) tt =
          phase_header (apply_events s
            (evs.filter (fun e => e.trigger_type.getD TriggerType.Standard = tt))) tt) ∧
    phase_header (apply_events (HtmxInner.new (fun _ => none) : HtmxInner String)
        [⟨"my-event", none, some TriggerType.AfterSettle⟩]) TriggerType.Standard = none ∧
    phase_header (apply_events (HtmxInner.new (fun _ => none) : HtmxInner String)
        [⟨"my-event", none, some TriggerType.AfterSettle⟩]) TriggerType.AfterSettle =
      some "my-event" := by
  refine ⟨?_, by decide, by decide⟩
  intro s evs
  induction evs generalizing s with
  | nil => intro tt; rfl
  | cons e evs ih =>
      intro tt
      by_cases he : e.trigger_type.getD TriggerType.Standard = tt
      · rw [apply_events_cons, List.filter_cons_of_pos (by simp [he]),
          apply_events_cons]
        exact ih _ tt
      · rw [apply_events_cons, List.filter_cons_of_neg (by simp [he])]
        rw [ih _ tt]
        apply phase_header_congr
        · exact (phase_components_apply_events tt _ _ _
            (by rw [get_triggers_trigger_event]; simp [he])
            (by rw [is_simple_trigger_trigger_event]; simp [he])).1
        · exact (phase_components_apply_events tt _ _ _
            (by rw [get_triggers_trigger_event]; simp [he])
            (by rw [is_simple_trigger_trigger_event]; simp [he])).2

/-! ## Request-header decoding facts -/

theorem char_toNat_ofNat_of_lt {n : Nat} (h : n < 55296) : (Char.ofNat n).toNat = n := by
  have hv : n.isValidChar := Or.inl h
  rw [Char.ofNat, dif_pos hv]
  simp [Char.ofNatAux, Char.toNat, UInt32.toNat]

theorem bytes_of_decode {bs : List Nat} {cs : List Char}
    (hb : ∀ b ∈ bs, b < 55296) (h : bs.map Char.ofNat = cs) :
    bs = cs.map Char.toNat := by
  subst h
  rw [List.map_map]
  symm
  calc bs.map (Char.toNat ∘ Char.ofNat)
      = bs.map id := List.map_congr_left (fun b hbm => char_toNat_ofNat_of_lt (hb b hbm))
    _ = bs := List.map_id bs

theorem visibleAscii_lt (b : Nat) (h : visibleAscii b = true) : b < 55296 := by
  simp only [visibleAscii, Bool.or_eq_true, decide_eq_true_eq, Bool.and_eq_true] at h
  omega

/-- The decoded boolean is `true` exactly on the four bytes spelling
"true". -/
theorem as_bool_eq_true_iff (v : Option (List Nat)) :
    as_bool v = true ↔ v = some [116, 114, 117, 101] := by
  constructor
  · intro h
    match v with
    | none => simp [as_bool] at h
    | some bs =>
        by_cases hall : bs.all visibleAscii
        · simp only [as_bool, headerToStr, hall, if_true] at h
          have hs : (⟨bs.map Char.ofNat⟩ : String) = "true" := by
            by_cases h1 : (⟨bs.map Char.ofNat⟩ : String) = "true"
            · exact h1
            · by_cases h2 : (⟨bs.map Char.ofNat⟩ : String) = "false" <;>
                simp [parse_bool, h1, h2] at h
          have hdata : bs.map Char.ofNat = "true".data := congrArg String.data hs
          have hb : ∀ b ∈ bs, b < 55296 := by
            intro b hbm
            exact visibleAscii_lt b (List.all_eq_true.mp hall b hbm)
          rw [bytes_of_decode hb hdata]
          decide
        · simp [as_bool, headerToStr, hall] at h
  · rintro rfl
    decide

/-- C6: each of the three boolean request flags is `true` iff its header is
present with the exact byte sequence spelling "true"; any other bytes
(including "True", "1", the empty value, or bytes `to_str` rejects) and an
absent header give `false`. -/
theorem c6_bool_flags_iff_literal_true (req : String → Option (List Nat)) :
    (is_htmx (HtmxInner.new req : HtmxInner String) = true ↔
      req "hx-request" = some [116, 114, 117, 101]) ∧
    (boosted (HtmxInner.new req : HtmxInner String) = true ↔
      req "hx-boosted" = some [116, 114, 117, 101]) ∧
    (history_restore_request (HtmxInner.new req : HtmxInner String) = true ↔
      req "hx-history-restore-request" = some [116, 114, 117, 101]) := by
  refine ⟨?_, ?_, ?_⟩
  · rw [show is_htmx (HtmxInner.new req : HtmxInner String) =
      as_bool (req "hx-request") from rfl]
    exact as_bool_eq_true_iff _
  · rw [show boosted (HtmxInner.new req : HtmxInner String) =
      as_bool (req "hx-boosted") from rfl]
    exact as_bool_eq_true_iff _
  · rw [show history_restore_request (HtmxInner.new req : HtmxInner String) =
      as_bool (req "hx-history-restore-request") from rfl]
    exact as_bool_eq_true_iff _

/-! ## Optional string headers (claim C7)

`validUtf8` follows the claim's words ("raw bytes are valid UTF-8"): it is
the standard UTF-8 well-formedness check (RFC 3629 table), used only to
state the claim; the code's actual acceptance condition is
`visibleAscii`. -/

def contByte (b : Nat) : Bool := 128 ≤ b && b < 192

def validUtf8 : List Nat → Bool
  | [] => true
  | b :: bs =>
    if b < 128 then validUtf8 bs
    else if 194 ≤ b ∧ b ≤ 223 then
      match bs with
      | c :: bs2 => contByte c && validUtf8 bs2
      | [] => false
    else if b = 224 then
      match bs with
      | c :: d :: bs2 => (160 ≤ c && c < 192) && contByte d && validUtf8 bs2
      | _ => false
    else if (225 ≤ b ∧ b ≤ 236) ∨ b = 238 ∨ b = 239 then
      match bs with
      | c :: d :: bs2 => contByte c && contByte d && validUtf8 bs2
      | _ => false
    else if b = 237 then
      match bs with
      | c :: d :: bs2 => (128 ≤ c && c < 160) && contByte d && validUtf8 bs2
      | _ => false
    else if b = 240 then
      match bs with
      | c :: d :: e :: bs2 => (144 ≤ c && c < 192) && contByte d && contByte e && validUtf8 bs2
      | _ => false
    else if 241 ≤ b ∧ b ≤ 243 then
      match bs with
      | c :: d :: e :: bs2 => contByte c && contByte d && contByte e && validUtf8 bs2
      | _ => false
    else if b = 244 then
      match bs with
      | c :: d :: e :: bs2 => (128 ≤ c && c < 144) && contByte d && contByte e && validUtf8 bs2
      | _ => false
    else false

/-- C7 counterexample: the two bytes 0xC3 0xA9 ("é") are valid UTF-8 and the
header is present, yet `current_url` is `none` — because `to_str` only
accepts visible ASCII, refuting "Some(value) iff the header is present and
its raw bytes are valid UTF-8". -/
theorem c7_utf8_bytes_still_none :
    validUtf8 [195, 169] = true ∧
    (fun h => if h = "hx-current-url" then some [195, 169] else none) "hx-current-url" =
      some [195, 169] ∧
    current_url (HtmxInner.new
        (fun h => if h = "hx-current-url" then some [195, 169] else none) :
      HtmxInner String) = none := by
  exact ⟨by decide, by decide, by decide⟩

/-- C7 (amended): each of the five optional string accessors reads its
header through `as_option_string`, which yields `some` exactly when the
header is present and every byte is visible ASCII (0x20–0x7E) or tab — the
condition `HeaderValue::to_str` checks — and then the value is the header
text unchanged; otherwise `none`, and no error is ever surfaced. -/
theorem c7_optional_strings_visible_ascii (req : String → Option (List Nat)) :
    current_url (HtmxInner.new req : HtmxInner String) =
        as_option_string (req "hx-current-url") ∧
    prompt (HtmxInner.new req : HtmxInner String) =
        as_option_string (req "hx-prompt") ∧
    target (HtmxInner.new req : HtmxInner String) =
        as_option_string (req "hx-target") ∧
    req_trigger (HtmxInner.new req : HtmxInner String) =
        as_option_string (req "hx-trigger") ∧
    trigger_name (HtmxInner.new req : HtmxInner String) =
        as_option_string (req "hx-trigger-name") ∧
    ∀ (v : Option (List Nat)) (s : String),
      as_option_string v = some s ↔
        ∃ bs, v = some bs ∧ bs.all visibleAscii = true ∧ s = ⟨bs.map Char.ofNat⟩ := by
  refine ⟨rfl, rfl, rfl, rfl, rfl, ?_⟩
  intro v s
  constructor
  · intro h
    match v with
    | none => simp [as_option_string] at h
    | some bs =>
        by_cases hall : bs.all visibleAscii
        · simp only [as_option_string, headerToStr, hall, if_true,
            Option.some.injEq] at h
          exact ⟨bs, rfl, hall, h.symm⟩
        · simp [as_option_string, headerToStr, hall] at h
  · rintro ⟨bs, rfl, hall, rfl⟩
    simp [as_option_string, headerToStr, hall]

/-! ## Error handling at finalization (claim C8) -/

/-- The validated form of one flat response-header entry: `some` of the
normalized pair when both the name and the value are encodable, `none` when
the entry is skipped with a warning. -/
def normalizeFlat (e : String × String) : Option (String × String) :=
  match parseHeaderName e.1 with
  | some key => if validHeaderValue e.2 then some (key, e.2) else none
  | none => none

theorem flat_loop_filterMap (entries : List (String × String)) :
    ∀ res, flat_header_loop res entries =
      (entries.filterMap normalizeFlat).foldl (fun r e => omInsert r e.1 e.2) res := by
  induction entries with
  | nil => intro res; rfl
  | cons e es ih =>
      intro res
      cases hn : parseHeaderName e.1 with
      | none =>
          have hstep : flat_header_loop res (e :: es) = flat_header_loop res es := by
            simp [flat_header_loop, hn]
          rw [hstep, ih, List.filterMap_cons]
          simp [normalizeFlat, hn]
      | some key =>
          by_cases hv : validHeaderValue e.2
          · have hstep : flat_header_loop res (e :: es) =
                flat_header_loop (omInsert res key e.2) es := by
              simp [flat_header_loop, hn, hv]
            rw [hstep, ih, List.filterMap_cons]
            simp [normalizeFlat, hn, hv]
          · have hstep : flat_header_loop res (e :: es) = flat_header_loop res es := by
              simp [flat_header_loop, hn, hv]
            rw [hstep, ih, List.filterMap_cons]
            simp [normalizeFlat, hn, hv]

/-- C8: finalization is total (a plain function of the state) and skipping
is local.  First, the flat loop equals applying exactly the validated
entries, so every valid entry is still set.  Second, a phase whose
serialized trigger text is not an encodable header value emits nothing.
Third, removing a single rejected flat entry does not change the finalized
response at all — the one bad header is skipped and everything else
proceeds. -/
theorem c8_invalid_entries_skipped_locally (s : HtmxInner String)
    (res : List (String × String)) :
    flat_header_loop res s.response_headers =
      (s.response_headers.filterMap normalizeFlat).foldl
        (fun r e => omInsert r e.1 e.2) res ∧
    (∀ tt, get_triggers s tt ≠ [] →
      validHeaderValue (if is_simple_trigger s tt then simple_header (get_triggers s tt)
        else trigger_json (get_triggers s tt)) = false →
      phase_header s tt = none) ∧
    (∀ pre e post, s.response_headers = pre ++ e :: post → normalizeFlat e = none →
      middleware_call s res =
        middleware_call { s with response_headers := pre ++ post } res) := by
  refine ⟨flat_loop_filterMap _ _, fun tt h hv => ?_, fun pre e post hresp hnone => ?_⟩
  · have hempty : (get_triggers s tt).isEmpty = false := by
      cases hm : get_triggers s tt with
      | nil => exact absurd hm h
      | cons a l => rfl
    simp [phase_header, serialize_trigger, hempty, hv]
  · calc middleware_call s res
        = flat_header_loop (triggers_part s res) s.response_headers := rfl
      _ = flat_header_loop (triggers_part s res) (pre ++ e :: post) := by rw [hresp]
      _ = ((pre ++ e :: post).filterMap normalizeFlat).foldl
            (fun r e => omInsert r e.1 e.2) (triggers_part s res) :=
          flat_loop_filterMap _ _
      _ = ((pre ++ post).filterMap normalizeFlat).foldl
            (fun r e => omInsert r e.1 e.2) (triggers_part s res) := by
          simp [List.filterMap_append, List.filterMap_cons, hnone]
      _ = flat_header_loop (triggers_part s res) (pre ++ post) :=
          (flat_loop_filterMap _ _).symm
      _ = middleware_call { s with response_headers := pre ++ post } res := rfl

/-- C8 witness: a flat entry whose name contains a space is skipped — the
finalized response equals the one computed without that entry, and equals
the single remaining valid header; a phase whose lone event name embeds a
newline emits no trigger header. -/
theorem c8_invalid_entries_skipped_locally_witness :
    middleware_call { (HtmxInner.new (fun _ => none) : HtmxInner String) with
        response_headers := [("x-good", "v"), ("bad name", "x")] } [] =
      middleware_call { (HtmxInner.new (fun _ => none) : HtmxInner String) with
        response_headers := [("x-good", "v")] } [] ∧
    middleware_call { (HtmxInner.new (fun _ => none) : HtmxInner String) with
        response_headers := [("x-good", "v"), ("bad name", "x")] } [] = [("x-good", "v")] ∧
    phase_header (trigger_event (HtmxInner.new (fun _ => none) : HtmxInner String)
        "bad\nname" none none) TriggerType.Standard = none := by
  refine ⟨?_, by decide, ?_⟩
  · exact (c8_invalid_entries_skipped_locally
      { (HtmxInner.new (fun _ => none) : HtmxInner String) with
        response_headers := [("x-good", "v"), ("bad name", "x")] } []).2.2
      [("x-good", "v")] ("bad name", "x") [] rfl (by decide)
  · exact (c8_invalid_entries_skipped_locally
      (trigger_event (HtmxInner.new (fun _ => none) : HtmxInner String)
        "bad\nname" none none) []).2.1
      TriggerType.Standard (by decide) (by decide)

/-! ## HX-Location serialization (claim C9) -/

theorem mem_optStrField_keys (k name : String) (o : Option String) :
    k ∈ (optStrField name o).map Prod.fst ↔ k = name ∧ o.isSome = true := by
  cases o <;> simp [optStrField]

theorem mem_optJsonField_keys (k name : String) (o : Option Json) :
    k ∈ (optJsonField name o).map Prod.fst ↔ k = name ∧ o.isSome = true := by
  cases o <;> simp [optJsonField]

theorem mem_headersField_keys (k : String) (hs : List (String × String)) :
    k ∈ ((if hs.isEmpty then []
        else [("headers", Json.obj (hs.map (fun e => (e.1, Json.str e.2))))]).map
          Prod.fst : List String) ↔ k = "headers" ∧ hs ≠ [] := by
  cases hs <;> simp

def locationFieldNames : List String :=
  ["path", "target", "source", "event", "swap", "headers", "values", "handler",
    "select", "push", "replace"]

theorem toJson_keys_mem (l : HxLocation) (k : String) :
    k ∈ (match l.toJson with | Json.obj fs => fs.map Prod.fst | _ => []) ↔
      (k = "path" ∨
        (k = "target" ∧ l.target.isSome = true) ∨
        (k = "source" ∧ l.source.isSome = true) ∨
        (k = "event" ∧ l.event.isSome = true) ∨
        (k = "swap" ∧ l.swap.isSome = true) ∨
        (k = "headers" ∧ l.headers ≠ []) ∨
        (k = "values" ∧ l.values.isSome = true) ∨
        (k = "handler" ∧ l.handler.isSome = true) ∨
        (k = "select" ∧ l.select.isSome = true) ∨
        (k = "push" ∧ l.push.isSome = true) ∨
        (k = "replace" ∧ l.replace.isSome = true)) := by
  simp only [HxLocation.toJson, List.map_append, List.mem_append,
    mem_optStrField_keys, mem_optJsonField_keys, mem_headersField_keys]
  simp [or_assoc]

/-- C9: `redirect_with_location` stores, under "hx-location", the serde
serialization of the builder state; it is a JSON object whose field names
come only from the fixed camelCase list, "path" is always present, and each
optional field appears iff it was set (the empty `headers` map is omitted
entirely), never as an explicit null. -/
theorem c9_location_optional_fields_omitted (s : HtmxInner String) (l : HxLocation) :
    omLookup (redirect_with_location s l).response_headers "hx-location" =
      some (jserialize l.toJson) ∧
    ∃ fs, l.toJson = Json.obj fs ∧
      (∀ k ∈ fs.map Prod.fst, k ∈ locationFieldNames) ∧
      "path" ∈ fs.map Prod.fst ∧
      ("target" ∈ fs.map Prod.fst ↔ l.target.isSome = true) ∧
      ("source" ∈ fs.map Prod.fst ↔ l.source.isSome = true) ∧
      ("event" ∈ fs.map Prod.fst ↔ l.event.isSome = true) ∧
      ("swap" ∈ fs.map Prod.fst ↔ l.swap.isSome = true) ∧
      ("headers" ∈ fs.map Prod.fst ↔ l.headers ≠ []) ∧
      ("values" ∈ fs.map Prod.fst ↔ l.values.isSome = true) ∧
      ("handler" ∈ fs.map Prod.fst ↔ l.handler.isSome = true) ∧
      ("select" ∈ fs.map Prod.fst ↔ l.select.isSome = true) ∧
      ("push" ∈ fs.map Prod.fst ↔ l.push.isSome = true) ∧
      ("replace" ∈ fs.map Prod.fst ↔ l.replace.isSome = true) := by
  refine ⟨?_, ?_⟩
  · unfold redirect_with_location HxLocation.into_header_value
    exact omLookup_omInsert_self _ _ _
  · refine ⟨_, rfl, ?_, ?_, ?_, ?_, ?_, ?_, ?_, ?_, ?_, ?_, ?_, ?_⟩ <;>
      [skip;
        exact (toJson_keys_mem l "path").mpr (Or.inl rfl);
        exact (toJson_keys_mem l "target").trans (by simp);
        exact (toJson_keys_mem l "source").trans (by simp);
        exact (toJson_keys_mem l "event").trans (by simp);
        exact (toJson_keys_mem l "swap").trans (by simp);
        exact (toJson_keys_mem l "headers").trans (by simp);
        exact (toJson_keys_mem l "values").trans (by simp);
        exact (toJson_keys_mem l "handler").trans (by simp);
        exact (toJson_keys_mem l "select").trans (by simp);
        exact (toJson_keys_mem l "push").trans (by simp);
        exact (toJson_keys_mem l "replace").trans (by simp)]
    intro k hk
    have := (toJson_keys_mem l k).mp hk
    rcases this with h | h | h | h | h | h | h | h | h | h | h
    · simp [locationFieldNames, h]
    all_goals simp [locationFieldNames, h.1]

end ActixHtmx
